import Mathlib

/-!
Verification development for the `lbxd` repository (`src/lbxd.py`).

The development shallowly embeds the two core units of the repository:

* the ID codec (`encode_id` / `decode_id`, built on the `pybase62` library
  that the source imports as `base62`), and
* the concurrent fetch-with-retry runner (`threaded_api_request` with its
  inner `error_handler` and `runner`).

Python strings are embedded as `List Char`, Python `int` as `ℤ`/`ℕ`, and a
raised exception that a caller observes as `str(e)` is embedded as the
message string.  Python's `int / int` true division produces an IEEE-754
binary64 float; since `decode_id` applies `int(... / 10)`, the embedding
models that division exactly (correctly rounded binary64 quotient, see
`pyDiv10` below).
-/

namespace base62

/-- The `CHARSET_INVERTED` constant of the `pybase62` library: digits, then
lowercase, then uppercase (62 symbols). -/
def CHARSET_INVERTED : List Char :=
  "0123456789abcdefghijklmnopqrstuvwxyzABCDEFGHIJKLMNOPQRSTUVWXYZ".data

/-- `charset[r]` — indexing into the charset, as done by `encode`'s
`charset[r]`.  Total with a default (the source only indexes with
`r = n % 62 < 62`). -/
def b62char (r : ℕ) : Char := CHARSET_INVERTED.getD r '0'

/-- The digit-producing loop of `pybase62.encode`:
`while n > 0: n, r = divmod(n, BASE); chs.append(charset[r])` followed by
`chs.reverse()`.  For `n = 0` the loop body never runs and the list is
empty. -/
def b62digits (n : ℕ) : List Char :=
  if h : n = 0 then []
  else b62digits (n / 62) ++ [b62char (n % 62)]
termination_by n
decreasing_by exact Nat.div_lt_self (Nat.pos_of_ne_zero h) (by norm_num)

/-- `pybase62.encode` at `minlen = 1` (the call sites in `lbxd.py` never pass
`minlen`): run the digit loop while `n > 0`; if no digit was produced
(i.e. `n <= 0`, which includes every negative input) return `"0"`;
`minlen = 1` never pads further since the result is nonempty. -/
def encode (n : ℤ) : List Char :=
  if n ≤ 0 then ['0'] else b62digits n.toNat

/-- `_value` of `pybase62`: `charset.index(ch)`, raising `ValueError` when
the character is not in the charset (embedded as `none`). -/
def charIndexAux (c : Char) : List Char → ℕ → Option ℕ
  | [], _ => none
  | d :: ds, i => if d = c then some i else charIndexAux c ds (i + 1)

/-- Index of a character in `CHARSET_INVERTED` (`charset.index(ch)`). -/
def charValue (c : Char) : Option ℕ := charIndexAux c CHARSET_INVERTED 0

/-- One step of the positional accumulation of `pybase62.decode`
(`v += _value(x) * BASE ** (l - (i + 1))` over the string is the fold
`v := v * 62 + _value(x)`); an invalid character propagates the
`ValueError`. -/
def valStep (acc : Option ℕ) (c : Char) : Option ℕ :=
  acc.bind fun v => (charValue c).map fun d => v * 62 + d

/-- `pybase62.decode`: strip a leading `"0z"` marker (used by the library's
bytes interface), then accumulate the positional value of each character;
an invalid character raises (`none`). -/
def decode (s : List Char) : Option ℕ :=
  (if s.take 2 = ['0', 'z'] then s.drop 2 else s).foldl valStep (some 0)

theorem b62digits_zero : b62digits 0 = [] := by
  unfold b62digits; simp

theorem b62digits_of_ne_zero {n : ℕ} (h : n ≠ 0) :
    b62digits n = b62digits (n / 62) ++ [b62char (n % 62)] := by
  conv_lhs => unfold b62digits
  simp [h]

theorem b62digits_ne_nil {n : ℕ} (h : n ≠ 0) : b62digits n ≠ [] := by
  rw [b62digits_of_ne_zero h]
  simp

theorem charValue_b62char : ∀ d : Fin 62, charValue (b62char d.val) = some d.val := by
  decide

theorem b62char_ne_zero_char : ∀ d : Fin 62, d.val ≠ 0 → b62char d.val ≠ '0' := by
  decide

/-- The leading digit produced for a positive number is never the zero
character, so encodings of positive numbers never start with `'0'`. -/
theorem b62digits_head_ne_zero (n : ℕ) (h : n ≠ 0) :
    (b62digits n).head? ≠ some '0' := by
  induction n using Nat.strong_induction_on with
  | _ n ih =>
    rw [b62digits_of_ne_zero h]
    by_cases hq : n / 62 = 0
    · have hlt : n < 62 := by
        rcases Nat.lt_or_ge n 62 with h' | h'
        · exact h'
        · have : n / 62 ≠ 0 := (Nat.div_ne_zero_iff (by norm_num)).mpr h'
          exact absurd hq this
      have hmod : n % 62 = n := Nat.mod_eq_of_lt hlt
      rw [hq, b62digits_zero, List.nil_append, hmod]
      simpa using b62char_ne_zero_char ⟨n, hlt⟩ h
    · obtain ⟨a, as, ha⟩ := List.exists_cons_of_ne_nil (b62digits_ne_nil hq)
      have := ih (n / 62) (Nat.div_lt_self (Nat.pos_of_ne_zero h) (by norm_num)) hq
      rw [ha] at this ⊢
      simpa using this

/-- Folding the decode step over the digits of `n` starting from
accumulator `v` yields `v * 62 ^ (number of digits) + n`. -/
theorem foldl_valStep_b62digits (n : ℕ) :
    ∀ v : ℕ, (b62digits n).foldl valStep (some v)
      = some (v * 62 ^ (b62digits n).length + n) := by
  induction n using Nat.strong_induction_on with
  | _ n ih =>
    intro v
    by_cases h : n = 0
    · subst h; simp [b62digits_zero]
    · rw [b62digits_of_ne_zero h, List.foldl_append,
        ih (n / 62) (Nat.div_lt_self (Nat.pos_of_ne_zero h) (by norm_num)) v]
      have hmod : n % 62 < 62 := Nat.mod_lt _ (by norm_num)
      have hcv : charValue (b62char (n % 62)) = some (n % 62) :=
        charValue_b62char ⟨n % 62, hmod⟩
      simp only [List.foldl_cons, List.foldl_nil, valStep, hcv,
        Option.some_bind', Option.map_some', Option.some.injEq,
        List.length_append, List.length_cons, List.length_nil]
      have hdm : 62 * (n / 62) + n % 62 = n := Nat.div_add_mod n 62
      calc (v * 62 ^ (b62digits (n / 62)).length + n / 62) * 62 + n % 62
          = v * (62 ^ (b62digits (n / 62)).length * 62)
            + (62 * (n / 62) + n % 62) := by ring
        _ = v * 62 ^ ((b62digits (n / 62)).length + (0 + 1)) + n := by
            rw [hdm, pow_succ]

theorem take_two_ne_of_head {s : List Char} (h : s.head? ≠ some '0') :
    s.take 2 ≠ ['0', 'z'] := by
  intro hc
  rcases s with _ | ⟨a, as⟩
  · simp at hc
  · have hstep : (a :: as).take 2 = a :: as.take 1 := rfl
    rw [hstep] at hc
    have ha : a = '0' := (List.cons_eq_cons.mp hc).1
    simp [ha] at h

/-- Integer-level round trip of the base62 codec: decoding an encoding of a
non-negative integer recovers it. -/
theorem decode_encode (n : ℕ) : decode (encode (n : ℤ)) = some n := by
  by_cases h : n = 0
  · subst h; decide
  · have hn0 : ¬((n : ℤ) ≤ 0) :=
      not_le.mpr (by exact_mod_cast Nat.pos_of_ne_zero h)
    rw [encode, if_neg hn0, Int.toNat_natCast]
    have hhead := b62digits_head_ne_zero n h
    rw [decode, if_neg (take_two_ne_of_head hhead), foldl_valStep_b62digits n 0]
    simp

/-- Encoding is injective on the non-negative integers. -/
theorem encode_injective {n₁ n₂ : ℕ} (h : encode (n₁ : ℤ) = encode (n₂ : ℤ)) :
    n₁ = n₂ := by
  have h1 := decode_encode n₁
  have h2 := decode_encode n₂
  rw [h] at h1
  exact Option.some_injective _ (h1.symm.trans h2)

end base62

/-!
## Python float semantics of `decode_id`

`decode_id` computes `int(base62.decode(...) / 10)`.  In Python 3, `/` on
two integers is true division: CPython computes the IEEE-754 binary64
double nearest to the exact rational quotient (ties to even mantissa), and
`int(...)` then truncates that double toward zero.  The embedding models
this exactly for the normal range of doubles (every value reachable from
the repository is far below the overflow threshold `2^1024`).
-/

/-- Round a rational to the nearest integer, ties to the even integer —
the IEEE-754 round-to-nearest-even rule applied to a scaled significand. -/
def rhe (x : ℚ) : ℤ :=
  if x - ⌊x⌋ < 1 / 2 then ⌊x⌋
  else if 1 / 2 < x - ⌊x⌋ then ⌊x⌋ + 1
  else if 2 ∣ ⌊x⌋ then ⌊x⌋ else ⌊x⌋ + 1

/-- The binade exponent `⌊log2 (n / 10)⌋` of the exact quotient `n / 10`
for `n ≥ 1`.  With `L = ⌊log2 n⌋` the quotient lies in `[2^(L-4), 2^(L-2))`,
and `2^(L-3) ≤ n / 10` is equivalent (clearing denominators, all powers of
two) to `5 * 2^L ≤ 4 * n`; the exponent is therefore `L - 3` in that case
and `L - 4` otherwise. -/
def floatExp10 (n : ℕ) : ℤ :=
  if 5 * 2 ^ Nat.log 2 n ≤ 4 * n then (Nat.log 2 n : ℤ) - 3
  else (Nat.log 2 n : ℤ) - 4

/-- The binary64 double produced by Python's true division `n / 10` for a
non-negative integer `n`, as an exact rational: the exact quotient is
scaled into `[2^52, 2^53)`, rounded to an integer significand with ties to
even, and scaled back.  (CPython's `int.__truediv__` returns the correctly
rounded double of the exact ratio.)  Overflow to `inf` (quotients at or
above `2^1024`) is outside the modelled range. -/
def pyDiv10 (n : ℕ) : ℚ :=
  if n = 0 then 0
  else (rhe ((n : ℚ) * (2 : ℚ) ^ ((52 : ℤ) - floatExp10 n) / 10) : ℚ)
    * (2 : ℚ) ^ (floatExp10 n - (52 : ℤ))

/-- Python `int(x)` on a float: truncation toward zero. -/
def pyTrunc (x : ℚ) : ℤ :=
  if x < 0 then -⌊-x⌋ else ⌊x⌋

/-- `encode_id` from `src/lbxd.py`: tag the internal ID with the low-order
marker (`*10 + 7` for users, `*10` otherwise) and base62-encode it with the
inverted charset. -/
def encode_id (internal_id : ℤ) (is_user : Bool) : List Char :=
  if is_user then base62.encode (internal_id * 10 + 7)
  else base62.encode (internal_id * 10)

/-- `decode_id` from `src/lbxd.py`:
`int(base62.decode(external_id, charset=base62.CHARSET_INVERTED) / 10)` —
base62-decode, true-divide by 10 (binary64), truncate.  A malformed
external ID raises (`none`). -/
def decode_id (external_id : List Char) : Option ℤ :=
  (base62.decode external_id).map fun t => pyTrunc (pyDiv10 t)

theorem rhe_ge (x : ℚ) : x - 1 / 2 ≤ (rhe x : ℚ) := by
  have hfl : ((⌊x⌋ : ℤ) : ℚ) ≤ x := Int.floor_le x
  have hfu : x < ((⌊x⌋ : ℤ) : ℚ) + 1 := Int.lt_floor_add_one x
  unfold rhe
  split_ifs <;> push_cast <;> linarith

theorem rhe_le (x : ℚ) : (rhe x : ℚ) ≤ x + 1 / 2 := by
  have hfl : ((⌊x⌋ : ℤ) : ℚ) ≤ x := Int.floor_le x
  have hfu : x < ((⌊x⌋ : ℤ) : ℚ) + 1 := Int.lt_floor_add_one x
  unfold rhe
  split_ifs with h1 h2 h3
  · push_cast; linarith
  · push_cast; linarith
  · push_cast; linarith
  · push_cast; linarith [not_lt.mp h1]

theorem rhe_intCast (z : ℤ) : rhe (z : ℚ) = z := by
  unfold rhe
  rw [Int.floor_intCast]
  rw [if_pos (by simp)]

theorem floatExp10_le (n : ℕ) (h2 : n ≤ 2 ^ 53) : floatExp10 n ≤ 49 := by
  have hL : Nat.log 2 n ≤ 53 := by
    calc Nat.log 2 n ≤ Nat.log 2 (2 ^ 53) := Nat.log_mono_right h2
      _ = 53 := Nat.log_pow (by norm_num) 53
  unfold floatExp10
  split_ifs with hcond
  · have hL52 : Nat.log 2 n ≤ 52 := by
      by_contra hL53
      have h53 : Nat.log 2 n = 53 := by omega
      rw [h53] at hcond
      have hp : (2 : ℕ) ^ 53 = 9007199254740992 := by norm_num
      rw [hp] at hcond h2
      omega
    omega
  · omega

/-- Python's `int(n / 10)` agrees with the floor division `n // 10` for
every `n ≤ 2^53` (where the binary64 quotient is close enough to exact):
the rounded quotient `v` satisfies `|v - n/10| ≤ 2^(e-53) ≤ 1/16`, which
pins its floor, and exact multiples of 10 divide exactly. -/
theorem pyDiv10_floor (n : ℕ) (h1 : 1 ≤ n) (h2 : n ≤ 2 ^ 53) :
    0 ≤ pyDiv10 n ∧ ⌊pyDiv10 n⌋ = ((n / 10 : ℕ) : ℤ) := by
  have hn0 : n ≠ 0 := Nat.one_le_iff_ne_zero.mp h1
  have he : floatExp10 n ≤ 49 := floatExp10_le n h2
  set e : ℤ := floatExp10 n with hedef
  set c : ℕ := ((52 : ℤ) - e).toNat with hcdef
  have hc52 : (c : ℤ) = 52 - e := Int.toNat_of_nonneg (by omega)
  have hc3 : 3 ≤ c := by omega
  have hzpow1 : (2 : ℚ) ^ ((52 : ℤ) - e) = (2 : ℚ) ^ c := by
    rw [← hc52, zpow_natCast]
  have hzpow2 : (2 : ℚ) ^ (e - (52 : ℤ)) = ((2 : ℚ) ^ c)⁻¹ := by
    rw [show e - (52 : ℤ) = -(52 - e) by ring, ← hc52, zpow_neg, zpow_natCast]
  set w : ℚ := (2 : ℚ) ^ c with hwdef
  have hw0 : 0 < w := pow_pos (by norm_num) c
  have hw8 : (8 : ℚ) ≤ w := by
    calc (8 : ℚ) = 2 ^ 3 := by norm_num
      _ ≤ 2 ^ c := pow_le_pow_right (by norm_num) hc3
  set x : ℚ := (n : ℚ) * (2 : ℚ) ^ ((52 : ℤ) - e) / 10 with hxdef
  have hxw : x = (n : ℚ) * w / 10 := by rw [hxdef, hzpow1]
  have hpy : pyDiv10 n = (rhe x : ℚ) / w := by
    rw [pyDiv10, if_neg hn0, ← hedef, ← hxdef, hzpow2, div_eq_mul_inv]
  set k : ℕ := n / 10 with hkdef
  set r : ℕ := n % 10 with hrdef
  have hkr : n = 10 * k + r := (Nat.div_add_mod n 10).symm
  have hr10 : r < 10 := Nat.mod_lt _ (by norm_num)
  by_cases hr : r = 0
  · -- exact multiple of ten: the scaled quotient is an integer, rounding
    -- is exact and the result is exactly `k`
    have hnk : (n : ℚ) = 10 * (k : ℚ) := by
      rw [hkr, hr]
      push_cast
      ring
    have hxk : x = ((k * (2 ^ c : ℕ) : ℤ) : ℚ) := by
      rw [hxw, hnk]
      push_cast
      field_simp
      ring
    have hm : rhe x = (k * (2 ^ c : ℕ) : ℤ) := by rw [hxk, rhe_intCast]
    have hv : pyDiv10 n = (k : ℚ) := by
      rw [hpy, hm]
      push_cast
      field_simp
    constructor
    · rw [hv]; positivity
    · rw [hv]
      exact_mod_cast Int.floor_natCast k
  · -- non-multiple of ten: `n/10` has fractional part in `[1/10, 9/10]`
    -- and the rounded quotient stays strictly between `k` and `k + 1`
    have hr1 : 1 ≤ r := Nat.one_le_iff_ne_zero.mpr hr
    have hx10 : x * 10 = (n : ℚ) * w := by
      rw [hxw]; field_simp
    have hml : x - 1 / 2 ≤ (rhe x : ℚ) := rhe_ge x
    have hmu : (rhe x : ℚ) ≤ x + 1 / 2 := rhe_le x
    have hnq : (n : ℚ) = 10 * (k : ℚ) + (r : ℚ) := by
      rw [hkr]; push_cast; ring
    have hrq1 : (1 : ℚ) ≤ (r : ℚ) := by exact_mod_cast hr1
    have hrq9 : (r : ℚ) ≤ 9 := by
      have : r ≤ 9 := by omega
      exact_mod_cast this
    have hwr1 : w ≤ (r : ℚ) * w := le_mul_of_one_le_left hw0.le hrq1
    have hwr9 : (r : ℚ) * w ≤ 9 * w := mul_le_mul_of_nonneg_right hrq9 hw0.le
    have hlow : (k : ℚ) < pyDiv10 n := by
      rw [hpy, lt_div_iff hw0]
      nlinarith
    have hhigh : pyDiv10 n < (k : ℚ) + 1 := by
      rw [hpy, div_lt_iff hw0]
      nlinarith
    have hk0 : (0 : ℚ) ≤ (k : ℚ) := by positivity
    constructor
    · linarith
    · rw [Int.floor_eq_iff]
      constructor
      · push_cast
        linarith
      · push_cast
        linarith

/-- Python's `int(n / 10)` equals `n // 10` throughout `0 ≤ n ≤ 2^53`. -/
theorem pyTrunc_pyDiv10 (n : ℕ) (h2 : n ≤ 2 ^ 53) :
    pyTrunc (pyDiv10 n) = ((n / 10 : ℕ) : ℤ) := by
  by_cases h : n = 0
  · subst h
    rw [pyDiv10, if_pos rfl, pyTrunc, if_neg (by norm_num)]
    simp
  · obtain ⟨hnn, hfl⟩ := pyDiv10_floor n (Nat.one_le_iff_ne_zero.mpr h) h2
    rw [pyTrunc, if_neg (not_lt.mpr hnn), hfl]

theorem natLog_bigPrimary : Nat.log 2 90071992547409930 = 56 :=
  Nat.log_eq_of_pow_le_of_lt_pow (by norm_num) (by norm_num)

theorem floatExp10_bigPrimary : floatExp10 90071992547409930 = 53 := by
  rw [floatExp10, natLog_bigPrimary, if_pos (by norm_num)]
  norm_num

/-- Evaluation of the modelled binary64 division at the tagged value
`10 * 9007199254740993`: the exact quotient `9007199254740993` is an odd
integer just above `2^53`, so it is not representable; the tie between the
two neighbouring doubles resolves to the even mantissa, one below. -/
theorem pyDiv10_bigPrimary : pyDiv10 90071992547409930 = 9007199254740992 := by
  rw [pyDiv10, if_neg (by norm_num), floatExp10_bigPrimary]
  rw [show ((52 : ℤ) - 53) = -1 by norm_num, show ((53 : ℤ) - 52) = 1 by norm_num]
  have hx : ((90071992547409930 : ℕ) : ℚ) * (2 : ℚ) ^ (-1 : ℤ) / 10
      = 9007199254740993 / 2 := by
    rw [zpow_neg, zpow_one]
    norm_num
  rw [hx]
  have hfloor : ⌊(9007199254740993 / 2 : ℚ)⌋ = 4503599627370496 := by
    rw [Int.floor_eq_iff]
    constructor <;> norm_num
  have hrhe : rhe (9007199254740993 / 2 : ℚ) = 4503599627370496 := by
    unfold rhe
    rw [hfloor, if_neg (by norm_num), if_neg (by norm_num), if_pos (by norm_num)]
  rw [hrhe, zpow_one]
  norm_num

theorem natLog_bigSecondary : Nat.log 2 90071992547409937 = 56 :=
  Nat.log_eq_of_pow_le_of_lt_pow (by norm_num) (by norm_num)

theorem floatExp10_bigSecondary : floatExp10 90071992547409937 = 53 := by
  rw [floatExp10, natLog_bigSecondary, if_pos (by norm_num)]
  norm_num

/-- Evaluation of the modelled binary64 division at the tagged value
`10 * 9007199254740993 + 7`: the exact quotient has fractional part `0.7`
but sits in a region where doubles are 2 apart, so it rounds up to the
even integer above. -/
theorem pyDiv10_bigSecondary : pyDiv10 90071992547409937 = 9007199254740994 := by
  rw [pyDiv10, if_neg (by norm_num), floatExp10_bigSecondary]
  rw [show ((52 : ℤ) - 53) = -1 by norm_num, show ((53 : ℤ) - 52) = 1 by norm_num]
  have hx : ((90071992547409937 : ℕ) : ℚ) * (2 : ℚ) ^ (-1 : ℤ) / 10
      = 90071992547409937 / 20 := by
    rw [zpow_neg, zpow_one]
    norm_num
  rw [hx]
  have hfloor : ⌊(90071992547409937 / 20 : ℚ)⌋ = 4503599627370496 := by
    rw [Int.floor_eq_iff]
    constructor <;> norm_num
  have hrhe : rhe (90071992547409937 / 20 : ℚ) = 4503599627370497 := by
    unfold rhe
    rw [hfloor, if_neg (by norm_num), if_pos (by norm_num)]
    norm_num
  rw [hrhe, zpow_one]
  norm_num

theorem pyTrunc_natCast (m : ℕ) : pyTrunc ((m : ℚ)) = m := by
  rw [pyTrunc, if_neg (not_lt.mpr (Nat.cast_nonneg m)), Int.floor_natCast]

/-- Composition of the codec: decoding an encoding hands the tagged natural
`10 * id + tag` to the float division and truncation. -/
theorem decode_id_encode_id (id : ℕ) (u : Bool) :
    decode_id (encode_id (id : ℤ) u)
      = some (pyTrunc (pyDiv10 (id * 10 + (if u then 7 else 0)))) := by
  cases u
  · have hcast : ((id : ℤ) * 10) = ((id * 10 + (if false then 7 else 0) : ℕ) : ℤ) := by
      push_cast
      ring
    rw [encode_id, if_neg (by simp), hcast, decode_id, base62.decode_encode]
    simp
  · have hcast : ((id : ℤ) * 10 + 7) = ((id * 10 + (if true then 7 else 0) : ℕ) : ℤ) := by
      push_cast
      simp
    rw [encode_id, if_pos (by simp), hcast, decode_id, base62.decode_encode]
    simp

/-- Where the code is right: for tagged values up to `2^53` the float
division is exact enough and the codec round-trips. -/
theorem decode_id_encode_id_small (id : ℕ) (u : Bool)
    (h : id * 10 + 7 ≤ 2 ^ 53) :
    decode_id (encode_id (id : ℤ) u) = some (id : ℤ) := by
  rw [decode_id_encode_id]
  have hle : id * 10 + (if u then 7 else 0) ≤ 2 ^ 53 := by
    cases u <;> simp <;> omega
  rw [pyTrunc_pyDiv10 _ hle]
  have hdiv : (id * 10 + (if u then 7 else 0)) / 10 = id := by
    cases u <;> simp <;> omega
  rw [hdiv]

/-!
## The fetch-with-retry runner (`threaded_api_request`)

One logical attempt on a target (`api_request(url)` followed by
`res.json()`) either produces a payload or raises an exception whose string
form is a message; a target's behaviour is the sequence of its attempt
results, indexed by how many attempts were already made on it.  The payload
type is opaque to the runner except for Python truthiness (`if entry:`),
which is supplied as a `truthy` predicate.

The thread pool only schedules targets; each target's retry loop runs
sequentially inside one worker and the three result lists are examined by
the claims only up to membership and counts, so the runner is embedded
sequentially in submission order (completion order is explicitly
unspecified in the source design).  `max_threads` (pool size) and
`print_every` (progress printing) do not affect the partition; the former
is kept as an inert parameter, the latter is omitted.
-/

/-- A URL (endpoint path): a Python string. -/
abbrev Url : Type := List Char

/-- Result of one attempt: a parsed payload, or an exception observed as
its message `str(e)`. -/
inductive Attempt (α : Type) : Type
  | ok (payload : α) : Attempt α
  | err (msg : List Char) : Attempt α

/-- Terminal classification that `error_handler` gives one target:
return the parsed payload, or append the URL to `missing_urls`
(not-found), or append it to `failed_urls` (retries exhausted). -/
inductive HandlerResult (α : Type) : Type
  | success (payload : α) : HandlerResult α
  | notFound : HandlerResult α
  | failed : HandlerResult α

/-- Whether the handler returned a payload. -/
def HandlerResult.isSuccess {α : Type} : HandlerResult α → Bool
  | .success _ => true
  | _ => false

/-- Whether the handler classified the target as not found. -/
def HandlerResult.isNotFound {α : Type} : HandlerResult α → Bool
  | .notFound => true
  | _ => false

/-- Whether the handler classified the target as failed. -/
def HandlerResult.isFailed {α : Type} : HandlerResult α → Bool
  | .failed => true
  | _ => false

/-- The `while True` loop of `error_handler`, with the attempt index `i`
(number of attempts already made) and the remaining retry budget
`max_retries - retry_count` as fuel.  Each iteration tries once: a success
returns the payload; an error whose message starts with `'404'`
(`str(e)[0:3] == '404'`) is terminal not-found; any other error consumes
one retry, failing when the budget is exhausted (`retry_count >
max_retries`).  The second component instruments the total number of
attempts made, which the source performs but does not return. -/
def handlerLoop {α : Type} (attempt : ℕ → Attempt α) : ℕ → ℕ → HandlerResult α × ℕ
  | i, fuel =>
    match attempt i with
    | .ok p => (.success p, i + 1)
    | .err m =>
      if m.take 3 = ['4', '0', '4'] then (.notFound, i + 1)
      else
        match fuel with
        | 0 => (.failed, i + 1)
        | f + 1 => handlerLoop attempt (i + 1) f

/-- `error_handler(url)` of `src/lbxd.py`, as a function of the target's
attempt behaviour: starts at attempt 0 with `retry_count = 0`, so the
budget of further attempts after the first is `max_retries`. -/
def error_handler {α : Type} (attempt : ℕ → Attempt α) (max_retries : ℕ) :
    HandlerResult α × ℕ :=
  handlerLoop attempt 0 max_retries

/-- The aggregate result of `threaded_api_request`: the triple
`(all_results, missing_urls, failed_urls)`. -/
structure FetchReport (α : Type) : Type where
  all_results : List α
  missing_urls : List Url
  failed_urls : List Url

/-- The contribution of a single target to the three lists: its payload is
appended to `all_results` only when truthy (`if entry:`), a not-found
target is appended to `missing_urls`, an exhausted one to `failed_urls`. -/
def classify {α : Type} (truthy : α → Bool) (behav : Url → ℕ → Attempt α)
    (max_retries : ℕ) (url : Url) : FetchReport α :=
  match (error_handler (behav url) max_retries).1 with
  | .success p => if truthy p then ⟨[p], [], []⟩ else ⟨[], [], []⟩
  | .notFound => ⟨[], [url], []⟩
  | .failed => ⟨[], [], [url]⟩

/-- The `runner` loop: process every submitted target and accumulate the
three lists (membership and counts are scheduling-independent). -/
def runner {α : Type} (truthy : α → Bool) (behav : Url → ℕ → Attempt α)
    (max_retries max_threads : ℕ) : List Url → FetchReport α
  | [] => ⟨[], [], []⟩
  | u :: rest =>
    let c := classify truthy behav max_retries u
    let r := runner truthy behav max_retries max_threads rest
    ⟨c.all_results ++ r.all_results, c.missing_urls ++ r.missing_urls,
      c.failed_urls ++ r.failed_urls⟩

/-- `threaded_api_request(url_list, max_retries, max_threads, ...)`,
returning `(all_results, missing_urls, failed_urls)`. -/
def threaded_api_request {α : Type} (truthy : α → Bool)
    (behav : Url → ℕ → Attempt α) (url_list : List Url)
    (max_retries max_threads : ℕ) : FetchReport α :=
  runner truthy behav max_retries max_threads url_list

theorem runner_missing_urls {α : Type} (truthy : α → Bool)
    (behav : Url → ℕ → Attempt α) (max_retries max_threads : ℕ)
    (urls : List Url) :
    (runner truthy behav max_retries max_threads urls).missing_urls
      = urls.filter fun u => ((error_handler (behav u) max_retries).1.isNotFound) := by
  induction urls with
  | nil => rfl
  | cons u rest ih =>
    have hcons : (runner truthy behav max_retries max_threads (u :: rest)).missing_urls
        = (classify truthy behav max_retries u).missing_urls
          ++ (runner truthy behav max_retries max_threads rest).missing_urls := rfl
    rw [hcons, ih, List.filter_cons]
    rcases h : (error_handler (behav u) max_retries).1 with p | _ | _
    · by_cases ht : truthy p <;> simp [classify, h, ht, HandlerResult.isNotFound]
    · simp [classify, h, HandlerResult.isNotFound]
    · simp [classify, h, HandlerResult.isNotFound]

theorem runner_failed_urls {α : Type} (truthy : α → Bool)
    (behav : Url → ℕ → Attempt α) (max_retries max_threads : ℕ)
    (urls : List Url) :
    (runner truthy behav max_retries max_threads urls).failed_urls
      = urls.filter fun u => ((error_handler (behav u) max_retries).1.isFailed) := by
  induction urls with
  | nil => rfl
  | cons u rest ih =>
    have hcons : (runner truthy behav max_retries max_threads (u :: rest)).failed_urls
        = (classify truthy behav max_retries u).failed_urls
          ++ (runner truthy behav max_retries max_threads rest).failed_urls := rfl
    rw [hcons, ih, List.filter_cons]
    rcases h : (error_handler (behav u) max_retries).1 with p | _ | _
    · by_cases ht : truthy p <;> simp [classify, h, ht, HandlerResult.isFailed]
    · simp [classify, h, HandlerResult.isFailed]
    · simp [classify, h, HandlerResult.isFailed]

theorem runner_all_results_length {α : Type} (truthy : α → Bool)
    (behav : Url → ℕ → Attempt α) (max_retries max_threads : ℕ) :
    ∀ urls : List Url,
      (∀ u ∈ urls, ∀ p,
        (error_handler (behav u) max_retries).1 = HandlerResult.success p →
          truthy p = true) →
      (runner truthy behav max_retries max_threads urls).all_results.length
        = (urls.filter fun u =>
            ((error_handler (behav u) max_retries).1.isSuccess)).length := by
  intro urls
  induction urls with
  | nil => intro _; rfl
  | cons u rest ih =>
    intro htr
    have hcons : (runner truthy behav max_retries max_threads (u :: rest)).all_results
        = (classify truthy behav max_retries u).all_results
          ++ (runner truthy behav max_retries max_threads rest).all_results := rfl
    have hrest := ih fun w hw p hp => htr w (List.mem_cons_of_mem _ hw) p hp
    rw [hcons, List.filter_cons, List.length_append, hrest]
    rcases h : (error_handler (behav u) max_retries).1 with p | _ | _
    · have ht : truthy p = true := htr u (List.mem_cons_self u rest) p h
      simp [classify, h, ht, HandlerResult.isSuccess]
      omega
    · simp [classify, h, HandlerResult.isSuccess]
    · simp [classify, h, HandlerResult.isSuccess]

theorem count_filter_of_nodup {α : Type} [BEq α] [LawfulBEq α] (p : α → Bool)
    {l : List α} {a : α} (hl : l.Nodup) (ha : a ∈ l) :
    (l.filter p).count a = if p a then 1 else 0 := by
  induction l with
  | nil => cases ha
  | cons b t ih =>
    rw [List.nodup_cons] at hl
    rw [List.filter_cons]
    rcases List.mem_cons.mp ha with rfl | hat
    · have hcount0 : (t.filter p).count a = 0 := by
        rw [List.count_eq_zero]
        intro hmem
        exact hl.1 (List.mem_filter.mp hmem).1
      by_cases hp : p a
      · rw [if_pos hp, if_pos hp, List.count_cons, hcount0]
        simp
      · rw [if_neg hp, if_neg hp, hcount0]
    · have hne : b ≠ a := fun h => hl.1 (h ▸ hat)
      have hi := ih hl.2 hat
      by_cases hp : p b
      · rw [if_pos hp, List.count_cons, hi]
        simp [hne]
      · rw [if_neg hp, hi]

/-- If every attempt on a target raises a transient (non-`'404'`) error,
the retry loop makes one attempt per unit of budget plus the initial one
and classifies the target as failed. -/
theorem handlerLoop_allerr {α : Type} (attempt : ℕ → Attempt α)
    (h : ∀ k, ∃ m, attempt k = Attempt.err m ∧ m.take 3 ≠ ['4', '0', '4']) :
    ∀ fuel i : ℕ, handlerLoop attempt i fuel = (HandlerResult.failed, i + fuel + 1) := by
  intro fuel
  induction fuel with
  | zero =>
    intro i
    obtain ⟨m, hm, hm4⟩ := h i
    simp [handlerLoop, hm, hm4]
  | succ f ih =>
    intro i
    obtain ⟨m, hm, hm4⟩ := h i
    have hred : handlerLoop attempt i (f + 1) = handlerLoop attempt (i + 1) f := by
      rw [handlerLoop, hm]
      simp [hm4]
    rw [hred, ih (i + 1)]
    have harith : i + 1 + f + 1 = i + (f + 1) + 1 := by omega
    rw [harith]

/-- If the first `j` attempts raise transient errors and attempt `j` raises
a `'404'`-marked error, then as long as `j` does not exceed the remaining
budget the loop stops at attempt `j` with a not-found classification. -/
theorem handlerLoop_notFound {α : Type} (attempt : ℕ → Attempt α) :
    ∀ j i fuel : ℕ,
      (∀ k < j, ∃ m, attempt (i + k) = Attempt.err m ∧ m.take 3 ≠ ['4', '0', '4']) →
      (∃ m, attempt (i + j) = Attempt.err m ∧ m.take 3 = ['4', '0', '4']) →
      j ≤ fuel →
      handlerLoop attempt i fuel = (HandlerResult.notFound, i + j + 1) := by
  intro j
  induction j with
  | zero =>
    intro i fuel _ h404 _
    obtain ⟨m, hm, hm4⟩ := h404
    rw [Nat.add_zero] at hm
    rcases fuel with _ | f <;> simp [handlerLoop, hm, hm4]
  | succ j ih =>
    intro i fuel htrans h404 hj
    obtain ⟨m0, hm0, hm04⟩ := htrans 0 (Nat.succ_pos j)
    rw [Nat.add_zero] at hm0
    rcases fuel with _ | f
    · omega
    · have hred : handlerLoop attempt i (f + 1) = handlerLoop attempt (i + 1) f := by
        rw [handlerLoop, hm0]
        simp [hm04]
      rw [hred]
      have hstep := ih (i + 1) f
        (fun k hk => by
          have := htrans (k + 1) (by omega)
          rwa [show i + (k + 1) = i + 1 + k by omega] at this)
        (by rwa [show i + 1 + j = i + (j + 1) by omega])
        (by omega)
      rw [hstep, show i + 1 + j + 1 = i + (j + 1) + 1 by omega]

/-- A first attempt that parses successfully returns its payload at once:
one attempt, independent of the retry budget. -/
theorem error_handler_first_ok {α : Type} (attempt : ℕ → Attempt α)
    (max_retries : ℕ) (p : α) (h : attempt 0 = Attempt.ok p) :
    error_handler attempt max_retries = (HandlerResult.success p, 1) := by
  rcases max_retries with _ | f <;> simp [error_handler, handlerLoop, h]

/-!
## Claims about the ID codec
-/

theorem encode_id_natCast (id : ℕ) (u : Bool) :
    encode_id (id : ℤ) u
      = base62.encode ((id * 10 + (if u then 7 else 0) : ℕ) : ℤ) := by
  cases u
  · rw [encode_id, if_neg (by simp)]
    congr 1
  · rw [encode_id, if_pos rfl]
    congr 1

/-- C1: the claim `decode(encode(id, kind)) == id` for every non-negative
`id` is the documented intent of the codec, but the code computes
`int(tagged / 10)` with float true division instead of `tagged // 10`: at
`internal_id = 9007199254740993` (PRIMARY kind), the tagged value is
`90071992547409930`, whose exact quotient `9007199254740993` is an odd
integer above `2^53`; the binary64 result ties down to the even neighbour
and the round trip returns `9007199254740992`, one less than the input. -/
theorem decode_id_encode_id_roundtrip_bug :
    decode_id (encode_id 9007199254740993 false) = some 9007199254740992 := by
  have h := decode_id_encode_id 9007199254740993 false
  have h2 : (9007199254740993 : ℕ) * 10 + (if false then 7 else 0)
      = 90071992547409930 := by norm_num
  rw [h2, pyDiv10_bigPrimary] at h
  have h3 : (9007199254740992 : ℚ) = ((9007199254740992 : ℕ) : ℚ) := by
    norm_num
  rw [h3, pyTrunc_natCast] at h
  push_cast at h
  exact_mod_cast h

/-- C3 counterexample: `decode_id` does not equal floor division of the
parsed tagged value for all magnitudes.  At the external ID encoding
`9007199254740993` with the SECONDARY tag, the parsed tagged value is
`90071992547409937`, whose floor quotient is `9007199254740993`, but
`decode_id` returns `9007199254740994` (the float quotient rounds up). -/
theorem decode_id_not_floor_division :
    base62.decode (encode_id 9007199254740993 true) = some 90071992547409937
    ∧ decode_id (encode_id 9007199254740993 true) = some 9007199254740994
    ∧ (90071992547409937 : ℕ) / 10 = 9007199254740993 := by
  refine ⟨?_, ?_, by norm_num⟩
  · have h := encode_id_natCast 9007199254740993 true
    have h2 : (9007199254740993 : ℕ) * 10 + (if true then 7 else 0)
        = 90071992547409937 := by norm_num
    rw [h2] at h
    have hcast : ((9007199254740993 : ℕ) : ℤ) = (9007199254740993 : ℤ) := by
      push_cast
    rw [hcast] at h
    rw [h, base62.decode_encode]
  · have h := decode_id_encode_id 9007199254740993 true
    have h2 : (9007199254740993 : ℕ) * 10 + (if true then 7 else 0)
        = 90071992547409937 := by norm_num
    rw [h2, pyDiv10_bigSecondary] at h
    have h3 : (9007199254740994 : ℚ) = ((9007199254740994 : ℕ) : ℚ) := by
      norm_num
    rw [h3, pyTrunc_natCast] at h
    push_cast at h
    exact_mod_cast h

/-- C3 (amended): for every valid external ID string whose parsed tagged
value does not exceed `2^53`, `decode_id` equals the integer floor
division of the tagged value by 10; beyond that range the float quotient
can differ from the floor. -/
theorem decode_id_eq_floor_of_small (s : List Char) (t : ℕ)
    (hdec : base62.decode s = some t) (ht : t ≤ 2 ^ 53) :
    decode_id s = some ((t / 10 : ℕ) : ℤ) := by
  rw [decode_id, hdec, Option.map_some', pyTrunc_pyDiv10 t ht]

theorem decode_id_eq_floor_of_small_witness :
    base62.decode ['z'] = some 35 ∧ decode_id ['z'] = some ((35 / 10 : ℕ) : ℤ) :=
  ⟨by decide, decode_id_eq_floor_of_small ['z'] 35 (by decide) (by norm_num)⟩

/-- C4: `encode_id` is injective — distinct non-negative internal IDs never
collide for a fixed kind, and the two kinds never collide on the same
internal ID (their tagged values differ by the constant 7 below a factor
of 10). -/
theorem encode_id_injective :
    (∀ (id1 id2 : ℕ) (kind : Bool), id1 ≠ id2 →
      encode_id (id1 : ℤ) kind ≠ encode_id (id2 : ℤ) kind)
    ∧ ∀ id : ℕ, encode_id (id : ℤ) false ≠ encode_id (id : ℤ) true := by
  constructor
  · intro id1 id2 kind hne heq
    rw [encode_id_natCast, encode_id_natCast] at heq
    have h := base62.encode_injective heq
    apply hne
    cases kind
    · simp at h
      exact h
    · simp at h
      exact h
  · intro id heq
    rw [encode_id_natCast, encode_id_natCast] at heq
    have h := base62.encode_injective heq
    simp at h

theorem encode_id_injective_witness :
    encode_id ((1 : ℕ) : ℤ) false ≠ encode_id ((2 : ℕ) : ℤ) false :=
  encode_id_injective.1 1 2 false (by decide)

/-- C8 counterexample: a negative internal ID is not rejected — the digit
loop of `base62.encode` never runs for a non-positive tagged value, so
`encode_id(-1, PRIMARY)` silently returns the external ID `"0"`, the same
string produced for internal ID 0. -/
theorem encode_id_negative_not_rejected :
    encode_id (-1) false = ['0'] ∧ encode_id (-1) false = encode_id 0 false := by
  constructor <;> rfl

/-- C8 (amended): for every negative internal ID and either kind,
`encode_id` raises no error: it returns the string `"0"` (the encoding of
zero), because the tagged value is non-positive and the encode loop
produces no digits. -/
theorem encode_id_negative_returns_zero (id : ℤ) (hid : id < 0) (kind : Bool) :
    encode_id id kind = ['0'] := by
  cases kind
  · have h : id * 10 ≤ 0 := by omega
    rw [encode_id, if_neg (by simp), base62.encode, if_pos h]
  · have h : id * 10 + 7 ≤ 0 := by omega
    rw [encode_id, if_pos rfl, base62.encode, if_pos h]

theorem encode_id_negative_returns_zero_witness : encode_id (-1) true = ['0'] :=
  encode_id_negative_returns_zero (-1) (by norm_num) true

/-- C9: the kind tag is recoverable from the encoded string: parsing
`encode_id(id, kind)` with the inverted alphabet yields a tagged value
congruent to 7 mod 10 for the user kind and to 0 mod 10 otherwise. -/
theorem encode_id_tag_recoverable (id : ℕ) :
    (base62.decode (encode_id (id : ℤ) true)).map (fun t => t % 10) = some 7
    ∧ (base62.decode (encode_id (id : ℤ) false)).map (fun t => t % 10) = some 0 := by
  constructor
  · rw [encode_id_natCast, base62.decode_encode, Option.map_some']
    have hmod : (id * 10 + 7) % 10 = 7 := by omega
    simp [hmod]
  · rw [encode_id_natCast, base62.decode_encode, Option.map_some']
    have hmod : (id * 10) % 10 = 0 := by omega
    simp [hmod]

/-!
## Claims about the fetch-with-retry runner
-/

/-- C2 counterexample: the partition invariant fails for a target whose
request succeeds with a falsy payload (e.g. the JSON value `false`, an
empty object, or `null`): `runner` guards the append with `if entry:`, so
the target lands in none of the three result lists. -/
theorem fetch_report_drops_falsy_success :
    (threaded_api_request (fun b => b) (fun _ _ => Attempt.ok false)
      [['a']] 0 1).all_results.length
      + (threaded_api_request (fun b => b) (fun _ _ => Attempt.ok false)
      [['a']] 0 1).missing_urls.length
      + (threaded_api_request (fun b => b) (fun _ _ => Attempt.ok false)
      [['a']] 0 1).failed_urls.length = 0 := by decide

/-- C2 (amended): provided every successfully parsed payload is truthy,
each submitted target is classified into exactly one of the three result
categories: its count in `missing_urls` plus its count in `failed_urls`
plus its success indicator is exactly one, and `all_results` holds exactly
one payload per successful target.  (A success with a falsy payload would
instead appear in none of the lists.) -/
theorem fetch_report_partitions_targets {α : Type} (truthy : α → Bool)
    (behav : Url → ℕ → Attempt α) (max_retries max_threads : ℕ)
    (urls : List Url) (hnd : urls.Nodup)
    (htruthy : ∀ u ∈ urls, ∀ p,
      (error_handler (behav u) max_retries).1 = HandlerResult.success p →
        truthy p = true) :
    (∀ u ∈ urls,
      (threaded_api_request truthy behav urls max_retries max_threads).missing_urls.count u
        + (threaded_api_request truthy behav urls max_retries max_threads).failed_urls.count u
        + (if ((error_handler (behav u) max_retries).1.isSuccess) then 1 else 0) = 1)
    ∧ (threaded_api_request truthy behav urls max_retries max_threads).all_results.length
        = (urls.filter fun u =>
            ((error_handler (behav u) max_retries).1.isSuccess)).length := by
  constructor
  · intro u hu
    rw [threaded_api_request, runner_missing_urls, runner_failed_urls,
      count_filter_of_nodup _ hnd hu, count_filter_of_nodup _ hnd hu]
    rcases h : (error_handler (behav u) max_retries).1 with p | _ | _ <;>
      simp [h, HandlerResult.isSuccess, HandlerResult.isNotFound,
        HandlerResult.isFailed]
  · rw [threaded_api_request]
    exact runner_all_results_length truthy behav max_retries max_threads urls htruthy

theorem fetch_report_partitions_targets_witness :
    (threaded_api_request (fun _ : ℕ => true) (fun _ _ => Attempt.ok 1)
      [['a']] 0 1).missing_urls.count ['a']
      + (threaded_api_request (fun _ : ℕ => true) (fun _ _ => Attempt.ok 1)
      [['a']] 0 1).failed_urls.count ['a']
      + (if ((error_handler (fun _ => Attempt.ok (1 : ℕ)) 0).1.isSuccess)
          then 1 else 0) = 1 :=
  (fetch_report_partitions_targets (fun _ => true) (fun _ _ => Attempt.ok 1)
    0 1 [['a']] (by decide) (fun _ _ _ _ => rfl)).1 ['a'] (by decide)

/-- C5: a target whose every attempt raises a transient (non-`'404'`)
error is classified as failed after exactly `max_retries + 1` attempts
(`retry_count` reaches `max_retries + 1 > max_retries`), and in a run it
is recorded exactly once in the failed list and never in the missing
list; with `max_retries = 0` this is a single attempt. -/
theorem transient_errors_retry_then_fail {α : Type} (truthy : α → Bool)
    (behav : Url → ℕ → Attempt α) (max_retries max_threads : ℕ)
    (urls : List Url) (u : Url) (hu : u ∈ urls) (hnd : urls.Nodup)
    (htrans : ∀ k, ∃ m, behav u k = Attempt.err m ∧ m.take 3 ≠ ['4', '0', '4']) :
    error_handler (behav u) max_retries = (HandlerResult.failed, max_retries + 1)
    ∧ (threaded_api_request truthy behav urls max_retries max_threads).failed_urls.count u = 1
    ∧ (threaded_api_request truthy behav urls max_retries max_threads).missing_urls.count u = 0 := by
  have hh : error_handler (behav u) max_retries
      = (HandlerResult.failed, max_retries + 1) := by
    rw [error_handler, handlerLoop_allerr (behav u) htrans max_retries 0,
      Nat.zero_add]
  refine ⟨hh, ?_, ?_⟩
  · rw [threaded_api_request, runner_failed_urls,
      count_filter_of_nodup _ hnd hu, hh]
    simp [HandlerResult.isFailed]
  · rw [threaded_api_request, runner_missing_urls,
      count_filter_of_nodup _ hnd hu, hh]
    simp [HandlerResult.isNotFound]

theorem transient_errors_retry_then_fail_witness :
    error_handler ((fun _ => Attempt.err ['5', '0', '0']) : ℕ → Attempt ℕ) 0
      = (HandlerResult.failed, 1) :=
  (transient_errors_retry_then_fail (fun _ => true)
    ((fun _ _ => Attempt.err ['5', '0', '0']) : Url → ℕ → Attempt ℕ) 0 1
    [['a']] ['a'] (by decide) (by decide)
    (fun _ => ⟨['5', '0', '0'], rfl, by decide⟩)).1

/-- C6: a target whose very first attempt raises an error whose message
starts with `'404'` is immediately classified as not found — one attempt,
no retries, regardless of the retry budget — contributes only to the
missing list, and in a run appears there exactly once and never in the
failed list. -/
theorem notfound_first_attempt_terminal {α : Type} (truthy : α → Bool)
    (behav : Url → ℕ → Attempt α) (max_retries max_threads : ℕ)
    (urls : List Url) (u : Url) (m : List Char) (hu : u ∈ urls)
    (hnd : urls.Nodup) (h0 : behav u 0 = Attempt.err m)
    (h404 : m.take 3 = ['4', '0', '4']) :
    error_handler (behav u) max_retries = (HandlerResult.notFound, 1)
    ∧ classify truthy behav max_retries u = ⟨[], [u], []⟩
    ∧ (threaded_api_request truthy behav urls max_retries max_threads).missing_urls.count u = 1
    ∧ (threaded_api_request truthy behav urls max_retries max_threads).failed_urls.count u = 0 := by
  have hh : error_handler (behav u) max_retries = (HandlerResult.notFound, 1) := by
    rw [error_handler]
    have := handlerLoop_notFound (behav u) 0 0 max_retries
      (fun k hk => absurd hk (by omega))
      ⟨m, by simpa using h0, h404⟩ (Nat.zero_le _)
    simpa using this
  refine ⟨hh, ?_, ?_, ?_⟩
  · simp [classify, hh]
  · rw [threaded_api_request, runner_missing_urls,
      count_filter_of_nodup _ hnd hu, hh]
    simp [HandlerResult.isNotFound]
  · rw [threaded_api_request, runner_failed_urls,
      count_filter_of_nodup _ hnd hu, hh]
    simp [HandlerResult.isFailed]

theorem notfound_first_attempt_terminal_witness :
    error_handler ((fun _ => Attempt.err ['4', '0', '4']) : ℕ → Attempt ℕ) 3
      = (HandlerResult.notFound, 1) :=
  (notfound_first_attempt_terminal (fun _ : ℕ => true)
    ((fun _ _ => Attempt.err ['4', '0', '4']) : Url → ℕ → Attempt ℕ) 3 1
    [['a']] ['a'] ['4', '0', '4'] (by decide) (by decide) rfl (by decide)).1

/-- C7 counterexample: with a single target whose first attempt succeeds
but parses to a falsy payload, the returned successes list is empty rather
than of length 1 — `runner`'s `if entry:` filters the payload out. -/
theorem all_success_report_misses_falsy :
    (threaded_api_request (fun b => b) (fun _ _ => Attempt.ok false)
      [['a']] 15 1).all_results.length = 0
    ∧ ([['a']] : List Url).length = 1 := by decide

/-- C7 (amended): if every target's first attempt succeeds with a truthy
payload, the successes list has exactly one payload per target and the
missing and failed lists are empty, for every pool size in `[1, N]`
(the pool size only schedules work and cannot affect the partition). -/
theorem all_first_try_success_fills_results {α : Type} (truthy : α → Bool)
    (behav : Url → ℕ → Attempt α) (max_retries max_threads : ℕ)
    (urls : List Url)
    (hfirst : ∀ u ∈ urls, ∃ p, behav u 0 = Attempt.ok p ∧ truthy p = true)
    (hmw : 1 ≤ max_threads ∧ max_threads ≤ urls.length) :
    (threaded_api_request truthy behav urls max_retries max_threads).all_results.length
      = urls.length
    ∧ (threaded_api_request truthy behav urls max_retries max_threads).missing_urls = []
    ∧ (threaded_api_request truthy behav urls max_retries max_threads).failed_urls = [] := by
  have hsucc : ∀ u ∈ urls,
      (error_handler (behav u) max_retries).1.isSuccess = true := by
    intro u hu
    obtain ⟨p, hp, _⟩ := hfirst u hu
    rw [error_handler_first_ok (behav u) max_retries p hp]
    rfl
  refine ⟨?_, ?_, ?_⟩
  · have htruthy : ∀ u ∈ urls, ∀ p,
        (error_handler (behav u) max_retries).1 = HandlerResult.success p →
          truthy p = true := by
      intro u hu p hp
      obtain ⟨q, hq, htq⟩ := hfirst u hu
      rw [error_handler_first_ok (behav u) max_retries q hq] at hp
      have hp2 : HandlerResult.success q = HandlerResult.success p := hp
      cases hp2
      exact htq
    rw [threaded_api_request,
      runner_all_results_length truthy behav max_retries max_threads urls htruthy,
      List.filter_eq_self.mpr hsucc]
  · rw [threaded_api_request, runner_missing_urls, List.filter_eq_nil_iff]
    intro u hu
    have hs := hsucc u hu
    rcases h : (error_handler (behav u) max_retries).1 with p | _ | _ <;>
      simp [h, HandlerResult.isSuccess, HandlerResult.isNotFound] at hs ⊢
  · rw [threaded_api_request, runner_failed_urls, List.filter_eq_nil_iff]
    intro u hu
    have hs := hsucc u hu
    rcases h : (error_handler (behav u) max_retries).1 with p | _ | _ <;>
      simp [h, HandlerResult.isSuccess, HandlerResult.isFailed] at hs ⊢

theorem all_first_try_success_fills_results_witness :
    (threaded_api_request (fun _ : ℕ => true) (fun _ _ => Attempt.ok 1)
      [['a']] 15 1).all_results.length = 1 :=
  (all_first_try_success_fills_results (fun _ => true) (fun _ _ => Attempt.ok 1)
    15 1 [['a']] (fun _ _ => ⟨1, rfl, rfl⟩) (by decide)).1

/-- C10: not-found classification takes precedence at any attempt, not
only the first: if a target raises transient errors on attempts
`0, ..., j-1` and a `'404'`-marked error on attempt `j` with
`j ≤ max_retries`, the target is classified as not found after `j + 1`
attempts — the accrued retry count does not divert it to the failed
list — and in a run it is counted once in missing and never in failed. -/
theorem notfound_after_transient_retries {α : Type} (truthy : α → Bool)
    (behav : Url → ℕ → Attempt α) (max_retries max_threads : ℕ)
    (urls : List Url) (u : Url) (j : ℕ) (m : List Char)
    (hu : u ∈ urls) (hnd : urls.Nodup)
    (htrans : ∀ k < j, ∃ mk, behav u k = Attempt.err mk ∧ mk.take 3 ≠ ['4', '0', '4'])
    (h404 : behav u j = Attempt.err m) (hm : m.take 3 = ['4', '0', '4'])
    (hj : j ≤ max_retries) :
    error_handler (behav u) max_retries = (HandlerResult.notFound, j + 1)
    ∧ (threaded_api_request truthy behav urls max_retries max_threads).missing_urls.count u = 1
    ∧ (threaded_api_request truthy behav urls max_retries max_threads).failed_urls.count u = 0 := by
  have hh : error_handler (behav u) max_retries
      = (HandlerResult.notFound, j + 1) := by
    rw [error_handler]
    have := handlerLoop_notFound (behav u) j 0 max_retries
      (fun k hk => by simpa using htrans k hk)
      ⟨m, by simpa using h404, hm⟩ hj
    simpa using this
  refine ⟨hh, ?_, ?_⟩
  · rw [threaded_api_request, runner_missing_urls,
      count_filter_of_nodup _ hnd hu, hh]
    simp [HandlerResult.isNotFound]
  · rw [threaded_api_request, runner_failed_urls,
      count_filter_of_nodup _ hnd hu, hh]
    simp [HandlerResult.isFailed]

theorem notfound_after_transient_retries_witness :
    error_handler
      ((fun k => if k = 0 then Attempt.err ['5', '0', '0']
        else Attempt.err ['4', '0', '4']) : ℕ → Attempt ℕ) 1
      = (HandlerResult.notFound, 2) :=
  (notfound_after_transient_retries (fun _ : ℕ => true)
    ((fun _ k => if k = 0 then Attempt.err ['5', '0', '0']
      else Attempt.err ['4', '0', '4']) : Url → ℕ → Attempt ℕ)
    1 1 [['a']] ['a'] 1 ['4', '0', '4'] (by decide) (by decide)
    (fun k hk => by
      have hk0 : k = 0 := by omega
      subst hk0
      exact ⟨['5', '0', '0'], rfl, by decide⟩)
    rfl rfl (by norm_num)).1
